import Mathlib

set_option maxHeartbeats 1000000

/-!
Verification of the miniboosts boosting library.

This file gives a shallow embedding, over the real numbers, of the
distribution-update kernels and booster round functions of the library:

* the pairwise log-sum-exp normalizer (`lseStep`, `logsumexp`), shared by
  `AdaBoost::update_params` and `CERLPBoost::update_distribution_mut`;
* AdaBoost's round function (`AdaBoost.boost`, src/booster/adaboost.rs);
* CERLPBoost's capped-simplex entropic projection and round function
  (`CERLPBoost.projLoop`, `CERLPBoost.boost`, src/booster/cerlpboost.rs);
* SoftBoost's inner solver loop and round function, with the external
  Gurobi solver abstracted as a transcript of (status, primal solution)
  responses (`SoftBoost.softLoop`, `SoftBoost.boost`, src/booster/softboost.rs);
* GraphSepBoost's edge bookkeeping (`GraphSepBoost.update_params`,
  src/booster/graph_separation_boosting/graph_separation_algorithm.rs);
* the hypothesis aggregation structure (`CombinedHypothesis`,
  src/hypothesis.rs).

Machine floats (`f64`) are modelled by `ℝ`; in this model every value is
finite, `Real.exp`/`Real.log` are exact, and `f64::signum` becomes
`rustSignum` (`+0.0` has sign `1.0`; `-0.0` and `NaN` have no counterpart
in `ℝ`).  The library sorts log-weights before folding purely for floating
point stability; over `ℝ` the pairwise fold equals `log` of the sum of
exponentials in any order (`Miniboosts.logsumexp_eq_log_sum`), so the fold
is applied to the index enumerations directly.  Weak learners and the
external LP/QP solver are oracles: a round function receives the produced
hypothesis (its confidence vector on the fixed sample) and, for SoftBoost,
the per-inner-iteration solver responses, as explicit arguments.
-/

open scoped Classical

noncomputable section

namespace Miniboosts

/-- Modelled from the spec: the concrete control-flow type with two variants
(Continue / Terminate) that `boost` returns; the module defining it is not
under src/ (only its users are). -/
inductive State where
  | Continue
  | Terminate
  deriving DecidableEq

/-- Rust `f64::signum`, restricted to real numbers: `1` for nonnegative
arguments (Rust returns `1.0` on `+0.0`), `-1` for negative ones. -/
def rustSignum (x : ℝ) : ℝ :=
  if x < 0 then -1 else 1

/-- Rust's float-to-integer cast `as i64`: truncation toward zero (the
saturation at the extremes of `i64` is irrelevant for the values ±1 cast
here). -/
def f64AsI64 (x : ℝ) : ℤ :=
  if x < 0 then ⌈x⌉ else ⌊x⌋

/-- One step of the numerically-stable pairwise log-sum-exp fold used by
`AdaBoost::update_params` and `CERLPBoost::update_distribution_mut`:
`a + log(1 + exp(b - a))` after swapping so that `a ≥ b`. -/
def lseStep (a b : ℝ) : ℝ :=
  if a < b then b + Real.log (1 + Real.exp (a - b)) else a + Real.log (1 + Real.exp (b - a))

/-- The pairwise log-sum-exp fold over a list of log-weights, seeded with the
first element, as in the `normalizer` loop of `AdaBoost::update_params` and
the `logsums` fold of `CERLPBoost::update_distribution_mut`.  (The source
first sorts the list ascending; over `ℝ` the result is order-independent.) -/
def logsumexp : List ℝ → ℝ
  | [] => 0
  | x :: xs => xs.foldl lseStep x

/-- The default `Classifier::predict` of src/hypothesis.rs:
`self.confidence(df, row).signum() as i64`.  `df` ranges over an arbitrary
data-frame type `α`. -/
def classifierPredict {α : Type _} (confidence : α → ℕ → ℝ) (df : α) (row : ℕ) : ℤ :=
  f64AsI64 (rustSignum (confidence df row))

/-- `CombinedHypothesis<F>` of src/hypothesis.rs: a weighted hypothesis list
plus a constant offset. -/
structure CombinedHypothesis (H : Type _) where
  inner : List (ℝ × H)
  constant : ℝ

/-- The `From<Vec<(f64, F)>>` impl for `CombinedHypothesis`: wrap the list and
set the constant to `0.0`. -/
def CombinedHypothesis.ofList {H : Type _} (inner : List (ℝ × H)) : CombinedHypothesis H :=
  { inner := inner, constant := 0 }

/-- The `Classifier::confidence` impl for `CombinedHypothesis`:
`Σ wⱼ·hⱼ.confidence(df, row) + constant`.  `conf` is the confidence method of
the underlying hypothesis type. -/
def CombinedHypothesis.confidence {α H : Type _} (conf : H → α → ℕ → ℝ)
    (c : CombinedHypothesis H) (df : α) (row : ℕ) : ℝ :=
  (c.inner.map fun wh => wh.1 * conf wh.2 df row).sum + c.constant

namespace AdaBoost

/-- The fields of the `AdaBoost<'_, F>` struct (src/booster/adaboost.rs) that
the round function reads or writes.  `m` is the number of sample rows, `H`
the hypothesis type. -/
structure Alg (m : ℕ) (H : Type _) where
  dist : Fin m → ℝ
  tolerance : ℝ
  weighted_classifiers : List (ℝ × H)
  max_iter : ℕ
  terminated : ℕ

/-- `AdaBoost::max_loop`: `(m.ln() / tolerance.powi(2)) as usize`.  The `as
usize` cast truncates toward zero (and clamps negatives to 0), which is
`Nat.floor` on the nonnegative reals. -/
def max_loop (m tolerance : ℝ) : ℕ :=
  ⌊Real.log m / tolerance ^ 2⌋₊

/-- The per-row margins `yᵢ·h.confidence(xᵢ)` computed in `AdaBoost::boost`. -/
def margins (y conf : Fin m → ℝ) : Fin m → ℝ :=
  fun i => y i * conf i

/-- The edge `⟨margins, dist⟩` computed in `AdaBoost::boost`. -/
def edge (dist y conf : Fin m → ℝ) : ℝ :=
  ∑ i, margins y conf i * dist i

/-- The weight on the new hypothesis computed in `AdaBoost::update_params`:
`((1 + edge) / (1 - edge)).ln() / 2`. -/
def hyp_weight (e : ℝ) : ℝ :=
  Real.log ((1 + e) / (1 - e)) / 2

/-- The log-domain weights `log dᵢ - weight·marginᵢ` that
`AdaBoost::update_params` writes into `self.dist` before normalizing. -/
def log_weights (dist margins' : Fin m → ℝ) (weight : ℝ) : Fin m → ℝ :=
  fun i => Real.log (dist i) - weight * margins' i

/-- The normalizer of `AdaBoost::update_params`: the pairwise log-sum-exp fold
over all log-domain weights (the source sorts them ascending first, which
does not change the exact value). -/
def normalizer (dist margins' : Fin m → ℝ) (weight : ℝ) : ℝ :=
  logsumexp ((List.finRange m).map (log_weights dist margins' weight))

/-- `AdaBoost::update_params`: returns the weight on the new hypothesis and
the renormalized distribution `exp(log dᵢ - weight·marginᵢ - normalizer)`. -/
def update_params (dist margins' : Fin m → ℝ) (e : ℝ) : ℝ × (Fin m → ℝ) :=
  (hyp_weight e,
   fun i => Real.exp (log_weights dist margins' (hyp_weight e) i
      - normalizer dist margins' (hyp_weight e)))

/-- `AdaBoost::boost` for one round.  The weak learner is an oracle: `h` is
the hypothesis it produced and `conf i` its confidence on row `i`. -/
def boost {m : ℕ} {H : Type _} (st : Alg m H) (y : Fin m → ℝ) (h : H)
    (conf : Fin m → ℝ) (iteration : ℕ) : State × Alg m H :=
  if st.max_iter < iteration then (State.Terminate, st)
  else if 1 ≤ |edge st.dist y conf| then
    (State.Terminate,
     { st with
        weighted_classifiers := [(rustSignum (edge st.dist y conf), h)]
        terminated := iteration })
  else
    (State.Continue,
     { st with
        dist := (update_params st.dist (margins y conf) (edge st.dist y conf)).2
        weighted_classifiers := st.weighted_classifiers
          ++ [((update_params st.dist (margins y conf) (edge st.dist y conf)).1, h)] })

/-- Modelled from the spec: the shared driver loop (`preprocess`; then for
`iter = 1, 2, …` call `boost`; stop on Terminate) lives in the `Booster`
trait, which is not under src/.  `steps init y rounds t` is the booster state
after the first `t` boost calls, where `rounds t` is the weak learner's
output (hypothesis and confidence vector) at round `t`. -/
def steps {m : ℕ} {H : Type _} (init : Alg m H) (y : Fin m → ℝ)
    (rounds : ℕ → H × (Fin m → ℝ)) : ℕ → Alg m H
  | 0 => init
  | t + 1 => (boost (steps init y rounds t) y (rounds (t + 1)).1 (rounds (t + 1)).2 (t + 1)).2

/-- Modelled from the spec: the control-flow signal the driver receives from
the boost call at round `t ≥ 1` (the driver stops at the first Terminate). -/
def signal {m : ℕ} {H : Type _} (init : Alg m H) (y : Fin m → ℝ)
    (rounds : ℕ → H × (Fin m → ℝ)) (t : ℕ) : State :=
  (boost (steps init y rounds (t - 1)) y (rounds t).1 (rounds t).2 t).1

end AdaBoost

namespace CERLPBoost

/-- The fields of the `CERLPBoost<'_, F>` struct (src/booster/cerlpboost.rs)
that the round function reads or writes.  Hypothesis weights are stored as
`(hypothesis, weight)` pairs, as in the source's `Vec<(F, f64)>`. -/
structure Alg (m : ℕ) (H : Type _) where
  dist : Fin m → ℝ
  eta : ℝ
  tolerance : ℝ
  nu : ℝ
  classifiers : List (H × ℝ)
  max_iter : ℕ
  terminated : ℕ

/-- `CERLPBoost::tolerance`: the builder stores half of the argument
(`self.tolerance = tolerance / 2.0`). -/
def tolerance (eps : ℝ) : ℝ :=
  eps / 2

/-- `CERLPBoost::regularization_param`: `eta = (m / nu).ln() / tolerance`,
where `tolerance` is the stored (halved) field. -/
def regularization_param (m nu tol : ℝ) : ℝ :=
  Real.log (m / nu) / tol

/-- `CERLPBoost::max_loop`: `(8 ln(m/ν) / tolerance²).ceil() as usize`, on the
stored (halved) tolerance field. -/
def max_loop (m nu tol : ℝ) : ℕ :=
  ⌈8 * Real.log (m / nu) / tol ^ 2⌉₊

/-- The regularization strength in effect after `tolerance(eps)` and `nu(ν)`
have been applied and `preprocess` recomputed `regularization_param`. -/
def eta_after_config (m nu eps : ℝ) : ℝ :=
  regularization_param m nu (tolerance eps)

/-- The iteration bound computed by `preprocess` (via `max_loop`) after
`tolerance(eps)` and `nu(ν)` have been applied. -/
def max_iter_after_config (m nu eps : ℝ) : ℕ :=
  max_loop m nu (tolerance eps)

/-- The free function `prediction` of src/booster/cerlpboost.rs: the combined
confidence `Σ wⱼ·hⱼ.confidence(i)` of the current weighted classifier list. -/
def prediction {m : ℕ} {H : Type _} (conf : H → Fin m → ℝ)
    (classifiers : List (H × ℝ)) (i : Fin m) : ℝ :=
  (classifiers.map fun hw => hw.2 * conf hw.1 i).sum

/-- The scores `-η·yᵢ·F(xᵢ)` that `CERLPBoost::update_distribution_mut`
writes into `self.dist` before projecting. -/
def scores {m : ℕ} {H : Type _} (eta : ℝ) (y : Fin m → ℝ) (conf : H → Fin m → ℝ)
    (classifiers : List (H × ℝ)) : Fin m → ℝ :=
  fun i => -eta * y i * prediction conf classifiers i

/-- The suffix log-sum-exp `logsum` used at each rank of the projection loop:
the source precomputes these by one reverse pairwise fold over the sorted
scores; over `ℝ` each equals the log-sum-exp of the remaining suffix. -/
def suffix_logsum {m : ℕ} (s : Fin m → ℝ) (l : List (Fin m)) : ℝ :=
  logsumexp (l.map s)

/-- The `log_xi` quantity of the projection loop at rank `k` with remaining
suffix `l`: `(1 - (1/ν)·k).ln() - logsum`. -/
def log_xi {m : ℕ} (nu : ℝ) (s : Fin m → ℝ) (k : ℕ) (l : List (Fin m)) : ℝ :=
  Real.log (1 - 1 / nu * k) - suffix_logsum s l

/-- The while-loop of `CERLPBoost::update_distribution_mut`, walking the
indices in non-increasing score order.  At rank `k` with remaining indices
`i :: rest`: if `log_xi + s i + log ν ≤ 0`, every remaining entry becomes
`exp(log_xi + s j)` and the loop stops; otherwise entry `i` is capped at
`1/ν` and the loop continues at rank `k+1`. -/
def projLoop {m : ℕ} (nu : ℝ) (s : Fin m → ℝ) : ℕ → List (Fin m) → (Fin m → ℝ) → Fin m → ℝ
  | _, [], d => d
  | k, i :: rest, d =>
    if log_xi nu s k (i :: rest) + s i + Real.log nu ≤ 0 then
      fun j => if j ∈ i :: rest then Real.exp (log_xi nu s k (i :: rest) + s j) else d j
    else
      projLoop nu s (k + 1) rest (fun j => if j = i then 1 / nu else d j)

/-- `CERLPBoost::update_distribution_mut`: write the scores into the
distribution buffer and run the capped-simplex projection loop along `idx`,
the indices sorted by score in non-increasing order (the sort order is passed
explicitly since `ℝ` has no computable order). -/
def update_distribution {m : ℕ} {H : Type _} (nu eta : ℝ) (y : Fin m → ℝ)
    (conf : H → Fin m → ℝ) (classifiers : List (H × ℝ)) (idx : List (Fin m)) : Fin m → ℝ :=
  projLoop nu (scores eta y conf classifiers) 0 idx (scores eta y conf classifiers)

/-- The gap vector `gᵢ = yᵢ·(h(xᵢ) - F(xᵢ))` computed in `CERLPBoost::boost`
against the pre-round classifier list. -/
def gap_vec {m : ℕ} {H : Type _} (y : Fin m → ℝ) (conf : H → Fin m → ℝ)
    (classifiers : List (H × ℝ)) (hconf : Fin m → ℝ) : Fin m → ℝ :=
  fun i => y i * (hconf i - prediction conf classifiers i)

/-- The inner product `⟨g, d⟩` (`diff` in `CERLPBoost::boost`, `numer` in
`update_clf_weight_mut`). -/
def diff {m : ℕ} (g d : Fin m → ℝ) : ℝ :=
  ∑ i, g i * d i

/-- The infinity norm fold of `CERLPBoost::update_clf_weight_mut`.  The
source seeds the fold of `max` over `|gᵢ|` with `f64::MIN`; on a nonempty
sample the first `|gᵢ| ≥ 0` dominates the seed, so seeding with `0` gives
the same value. -/
def inf_norm {m : ℕ} (g : Fin m → ℝ) : ℝ :=
  ((List.finRange m).map fun i => |g i|).foldl max 0

/-- The corrective step size of `CERLPBoost::update_clf_weight_mut`:
`clip(⟨g,d⟩ / (η·‖g‖_∞²), 0, 1)`. -/
def clf_weight {m : ℕ} (eta : ℝ) (g d : Fin m → ℝ) : ℝ :=
  max 0 (min 1 (diff g d / (eta * inf_norm g ^ 2)))

/-- The weight update of `CERLPBoost::update_clf_weight_mut`: the matching
entry gains `w`, every other entry is scaled by `1 - w`; a hypothesis not yet
present is appended with weight `w`. -/
def update_clf_weight {H : Type _} (classifiers : List (H × ℝ)) (new_clf : H)
    (w : ℝ) : List (H × ℝ) :=
  if ∃ hw ∈ classifiers, hw.1 = new_clf then
    classifiers.map fun hw => if hw.1 = new_clf then (hw.1, hw.2 + w) else (hw.1, hw.2 * (1 - w))
  else
    (classifiers.map fun hw => (hw.1, hw.2 * (1 - w))) ++ [(new_clf, w)]

/-- `CERLPBoost::boost` for one round: recompute the distribution by the
capped projection, compute the gap against the new hypothesis `h` (with
confidences `conf h`), terminate if `⟨g, d⟩ ≤ tolerance`, otherwise apply the
corrective weight update. -/
def boost {m : ℕ} {H : Type _} (conf : H → Fin m → ℝ) (y : Fin m → ℝ) (st : Alg m H)
    (h : H) (idx : List (Fin m)) (iteration : ℕ) : State × Alg m H :=
  if st.max_iter < iteration then (State.Terminate, st)
  else if diff (gap_vec y conf st.classifiers (conf h))
      (update_distribution st.nu st.eta y conf st.classifiers idx) ≤ st.tolerance then
    (State.Terminate,
     { st with
        dist := update_distribution st.nu st.eta y conf st.classifiers idx
        terminated := iteration })
  else
    (State.Continue,
     { st with
        dist := update_distribution st.nu st.eta y conf st.classifiers idx
        classifiers := update_clf_weight st.classifiers h
          (clf_weight st.eta (gap_vec y conf st.classifiers (conf h))
            (update_distribution st.nu st.eta y conf st.classifiers idx)) })

/-- The concrete first-round projection used as counterexample input: a
2-row sample with labels `(1, -1)`, capping `ν = 2 = m`, an empty classifier
list (so the combined confidence `F` is 0 and every score is 0), and the
sorted index order `[0, 1]` produced by the stable sort on equal scores. -/
def cexDist : Fin 2 → ℝ :=
  update_distribution 2 1 ![1, -1] (fun _ : Unit => fun _ => 0) [] [0, 1]

end CERLPBoost

/-- The model statuses of the external solver facade (§6 of the spec; the
`grb::Status` values matched in src/booster/softboost.rs). -/
inductive GrbStatus where
  | Optimal
  | SubOptimal
  | Infeasible
  | InfOrUnbd
  | Other
  deriving DecidableEq

namespace SoftBoost

/-- The possible outcomes of SoftBoost's inner sequential-QP loop.
`optimality d` models `update_params_mut` returning `None` with the
distribution buffer holding `d` (solver infeasible, or a zero entry after the
loop); `done d` models `Some(())` with updated distribution `d`; `fatal`
models the `panic!` on an unexpected solver status; `fuel` marks a solver
transcript too short for the loop (the oracle ran out of responses). -/
inductive Inner (m : ℕ) where
  | optimality (d : Fin m → ℝ)
  | fatal
  | done (d : Fin m → ℝ)
  | fuel

/-- The fields of the `SoftBoost<'_, F>` struct (src/booster/softboost.rs)
that the round function reads or writes. -/
structure Alg (m : ℕ) (H : Type _) where
  dist : Fin m → ℝ
  gamma_hat : ℝ
  tolerance : ℝ
  sub_tolerance : ℝ
  nu : ℝ
  classifiers : List H
  max_iter : ℕ
  terminated : ℕ

/-- The `loop` of `SoftBoost::update_params_mut`, driven by the transcript of
solver responses (model status and primal `δ` values, one per inner
iteration): on `Infeasible`/`InfOrUnbd` return `None` (optimality) with the
distribution as it stands; on any other non-`Optimal` status panic; otherwise
apply `d ← d + δ` and break once `‖δ‖₂ < sub_tolerance`. -/
def softLoop {m : ℕ} (subTol : ℝ) :
    List (GrbStatus × (Fin m → ℝ)) → (Fin m → ℝ) → Inner m
  | [], _ => Inner.fuel
  | (status, delta) :: rest, dist =>
    if status = GrbStatus.Infeasible ∨ status = GrbStatus.InfOrUnbd then
      Inner.optimality dist
    else if status = GrbStatus.Optimal then
      if Real.sqrt (∑ i, delta i ^ 2) < subTol then
        Inner.done (fun i => dist i + delta i)
      else
        softLoop subTol rest (fun i => dist i + delta i)
    else Inner.fatal

/-- `SoftBoost::update_params_mut`: run the inner loop; after a normal break,
a zero entry in the distribution also returns `None` (optimality). -/
def update_params_mut {m : ℕ} (subTol : ℝ)
    (responses : List (GrbStatus × (Fin m → ℝ))) (dist : Fin m → ℝ) : Inner m :=
  match softLoop subTol responses dist with
  | Inner.done d' => if ∃ i, d' i = 0 then Inner.optimality d' else Inner.done d'
  | r => r

/-- The edge `Σ dᵢ·yᵢ·h.confidence(xᵢ)` computed in `SoftBoost::boost`. -/
def edge {m : ℕ} (dist y hconf : Fin m → ℝ) : ℝ :=
  ∑ i, dist i * y i * hconf i

/-- `SoftBoost::boost` for one round.  `none` models a panic propagating out
of the round (unexpected solver status) or a too-short solver transcript;
`some` is a clean return of a Continue/Terminate signal. -/
def boost {m : ℕ} {H : Type _} (conf : H → Fin m → ℝ) (y : Fin m → ℝ) (st : Alg m H)
    (h : H) (responses : List (GrbStatus × (Fin m → ℝ))) (iteration : ℕ) :
    Option (State × Alg m H) :=
  if st.max_iter < iteration then some (State.Terminate, st)
  else
    match update_params_mut st.sub_tolerance responses st.dist with
    | Inner.optimality dcur =>
      some (State.Terminate,
        { st with
           gamma_hat := min st.gamma_hat (edge st.dist y (conf h))
           classifiers := st.classifiers ++ [h]
           dist := dcur
           terminated := iteration })
    | Inner.done d' =>
      some (State.Continue,
        { st with
           gamma_hat := min st.gamma_hat (edge st.dist y (conf h))
           classifiers := st.classifiers ++ [h]
           dist := d' })
    | _ => none

end SoftBoost

namespace GraphSepBoost

/-- The initial adjacency built by `GraphSepBoost::preprocess`: vertex `i` is
adjacent to every `j` with `target[i] ≠ target[j]` (the double loop inserts
both directions of each pair). -/
def preprocess {m : ℕ} (y : Fin m → ℝ) : Fin m → Finset (Fin m) :=
  fun i => Finset.univ.filter fun j => y i ≠ y j

/-- `GraphSepBoost::update_params`: remove every edge `(i, j)` on which the
new hypothesis disagrees, i.e. keep exactly the neighbours with the same
prediction (the double loop removes both directions of each disagreeing
pair). -/
def update_params {m : ℕ} (pred : Fin m → ℤ) (edges : Fin m → Finset (Fin m)) :
    Fin m → Finset (Fin m) :=
  fun i => (edges i).filter fun j => pred i = pred j

/-- The adjacency after the rounds whose hypotheses predicted `preds`,
starting from the initial adjacency of `preprocess`. -/
def edgesAfter {m : ℕ} (y : Fin m → ℝ) (preds : List (Fin m → ℤ)) :
    Fin m → Finset (Fin m) :=
  preds.foldl (fun e p => update_params p e) (preprocess y)

end GraphSepBoost

/-! Helper lemmas about the log-sum-exp kernel. -/

/-- The pairwise stable step computes the exact two-term log-sum-exp. -/
theorem lseStep_eq (a b : ℝ) : lseStep a b = Real.log (Real.exp a + Real.exp b) := by
  have key : ∀ u v : ℝ, u + Real.log (1 + Real.exp (v - u)) = Real.log (Real.exp u + Real.exp v) := by
    intro u v
    have h1 : (0:ℝ) < 1 + Real.exp (v - u) := by positivity
    have h2 : Real.exp u * (1 + Real.exp (v - u)) = Real.exp u + Real.exp v := by
      rw [mul_add, mul_one, ← Real.exp_add]
      congr 2
      ring
    calc u + Real.log (1 + Real.exp (v - u))
        = Real.log (Real.exp u) + Real.log (1 + Real.exp (v - u)) := by rw [Real.log_exp]
      _ = Real.log (Real.exp u * (1 + Real.exp (v - u))) :=
          (Real.log_mul (Real.exp_ne_zero u) (ne_of_gt h1)).symm
      _ = Real.log (Real.exp u + Real.exp v) := by rw [h2]
  unfold lseStep
  split_ifs with h
  · rw [key b a, add_comm (Real.exp b)]
  · exact key a b

/-- Folding the pairwise step over a list computes the exact log-sum-exp of
the seed and the list, in any order. -/
theorem foldl_lseStep_eq (xs : List ℝ) : ∀ x : ℝ,
    xs.foldl lseStep x = Real.log (Real.exp x + (xs.map Real.exp).sum) := by
  induction xs with
  | nil => intro x; simp [Real.log_exp]
  | cons a xs ih =>
    intro x
    have hpos : (0:ℝ) < Real.exp x + Real.exp a := by positivity
    rw [List.foldl_cons, ih (lseStep x a), lseStep_eq, Real.exp_log hpos,
      List.map_cons, List.sum_cons, add_assoc]

/-- On a nonempty list, `logsumexp` is the logarithm of the sum of
exponentials; in particular it does not depend on the order of the list. -/
theorem logsumexp_eq_log_sum (L : List ℝ) (hL : L ≠ []) :
    logsumexp L = Real.log ((L.map Real.exp).sum) := by
  cases L with
  | nil => exact absurd rfl hL
  | cons x xs =>
    rw [show logsumexp (x :: xs) = xs.foldl lseStep x from rfl, foldl_lseStep_eq,
      List.map_cons, List.sum_cons]

/-- Summing a constant over a list. -/
theorem list_sum_map_const {α : Type _} (l : List α) (c : ℝ) :
    (l.map fun _ => c).sum = l.length * c := by
  induction l with
  | nil => simp
  | cons a l ih => simp [ih]; ring

/-- The sum of exponentials over a nonempty index list is positive. -/
theorem sum_exp_cons_pos {m : ℕ} (s : Fin m → ℝ) (i : Fin m) (rest : List (Fin m)) :
    0 < (((i :: rest).map s).map Real.exp).sum := by
  simp only [List.map_cons, List.sum_cons]
  have h1 : (0:ℝ) ≤ ((rest.map s).map Real.exp).sum := by
    apply List.sum_nonneg
    intro x hx
    simp only [List.mem_map] at hx
    obtain ⟨a, -, rfl⟩ := hx
    exact (Real.exp_pos _).le
  linarith [Real.exp_pos (s i)]

/-! Helper lemmas about AdaBoost's log-domain renormalization. -/

/-- The renormalized AdaBoost distribution is positive and sums to one
exactly (src/booster/adaboost.rs, `update_params`). -/
theorem adaboost_update_params_dist {m : ℕ} (hm : 0 < m) (dist margins' : Fin m → ℝ)
    (e : ℝ) :
    (∀ i, 0 < (AdaBoost.update_params dist margins' e).2 i) ∧
    (∑ i, (AdaBoost.update_params dist margins' e).2 i) = 1 := by
  have hne : Nonempty (Fin m) := Fin.pos_iff_nonempty.mp hm
  set w := AdaBoost.hyp_weight e
  set l := AdaBoost.log_weights dist margins' w with hl
  have hS : (0:ℝ) < ∑ i, Real.exp (l i) :=
    Finset.sum_pos (fun i _ => Real.exp_pos _) Finset.univ_nonempty
  have hZ : AdaBoost.normalizer dist margins' w = Real.log (∑ i, Real.exp (l i)) := by
    unfold AdaBoost.normalizer
    rw [logsumexp_eq_log_sum]
    · rw [List.map_map, Fin.sum_univ_def, ← hl]
      rfl
    · intro hcon
      have := congrArg List.length hcon
      simp at this
      omega
  have hval : ∀ i, (AdaBoost.update_params dist margins' e).2 i
      = Real.exp (l i - AdaBoost.normalizer dist margins' w) := fun i => rfl
  have hsum : (∑ i, (AdaBoost.update_params dist margins' e).2 i) = 1 := by
    calc (∑ i, (AdaBoost.update_params dist margins' e).2 i)
        = ∑ i, Real.exp (l i - AdaBoost.normalizer dist margins' w) := by
          exact Finset.sum_congr rfl fun i _ => hval i
      _ = ∑ i, Real.exp (l i) / Real.exp (AdaBoost.normalizer dist margins' w) := by
          exact Finset.sum_congr rfl fun i _ => Real.exp_sub _ _
      _ = (∑ i, Real.exp (l i)) / Real.exp (AdaBoost.normalizer dist margins' w) :=
          (Finset.sum_div _ _ _).symm
      _ = 1 := by
          rw [hZ, Real.exp_log hS, div_self (ne_of_gt hS)]
  exact ⟨fun i => by rw [hval i]; exact Real.exp_pos _, hsum⟩

/-! Helper lemmas about CERLPBoost's capped-simplex entropic projection. -/

/-- Core exit invariant of the projection while-loop of
`CERLPBoost::update_distribution_mut`.  Started at rank `done.length` with
the already-capped index prefix `done` (each entry assigned `1/ν`) and the
remaining indices `l` sorted by score in non-increasing order, the loop stops
before exhausting `l`; the indices of `l` it capped form a prefix `pre`,
every remaining entry lies in `(0, 1/ν]`, and the entries sum to 1 exactly. -/
theorem projLoop_exit {m : ℕ} (nu : ℝ) (s : Fin m → ℝ) (h1 : 1 ≤ nu) (hm : nu ≤ (m:ℝ)) :
    ∀ (l done : List (Fin m)) (d : Fin m → ℝ),
      (done ++ l).Perm (List.finRange m) →
      l.Pairwise (fun a b => s b ≤ s a) →
      (∀ j ∈ done, d j = 1 / nu) →
      ((done.length : ℝ) < nu) →
      ∃ pre suf, l = pre ++ suf ∧ suf ≠ [] ∧
        (∀ j ∈ done ++ pre, CERLPBoost.projLoop nu s done.length l d j = 1 / nu) ∧
        (∀ j ∈ suf, 0 < CERLPBoost.projLoop nu s done.length l d j ∧
          CERLPBoost.projLoop nu s done.length l d j ≤ 1 / nu) ∧
        (∑ j, CERLPBoost.projLoop nu s done.length l d j) = 1 := by
  intro l
  induction l with
  | nil =>
    intro done d hperm _ _ hlen
    exfalso
    have hlen' : done.length = m := by simpa using hperm.length_eq
    rw [hlen'] at hlen
    exact absurd hm (not_le.mpr hlen)
  | cons i rest ih =>
    intro done d hperm hsort hdone hlen
    have hν0 : (0:ℝ) < nu := lt_of_lt_of_le one_pos h1
    have hnodup : (done ++ i :: rest).Nodup := hperm.nodup_iff.mpr (List.nodup_finRange m)
    obtain ⟨hnd_done, hnd_cons, hdisj⟩ := List.nodup_append.mp hnodup
    set S := (((i :: rest).map s).map Real.exp).sum with hSdef
    have hSpos : 0 < S := sum_exp_cons_pos s i rest
    have hlogsum : CERLPBoost.suffix_logsum s (i :: rest) = Real.log S := by
      unfold CERLPBoost.suffix_logsum
      rw [logsumexp_eq_log_sum _ (by simp)]
    have hfrac : 0 < 1 - 1 / nu * (done.length : ℝ) := by
      have hq : (done.length : ℝ) / nu < 1 := (div_lt_one hν0).mpr hlen
      have heq' : (1:ℝ) / nu * (done.length : ℝ) = (done.length : ℝ) / nu := by ring
      rw [heq']
      linarith
    have hlx : CERLPBoost.log_xi nu s done.length (i :: rest)
        = Real.log (1 - 1 / nu * (done.length:ℝ)) - Real.log S := by
      unfold CERLPBoost.log_xi
      rw [hlogsum]
    have hrest_nonneg : (0:ℝ) ≤ ((rest.map s).map Real.exp).sum := by
      apply List.sum_nonneg
      intro x hx
      simp only [List.mem_map] at hx
      obtain ⟨a, -, rfl⟩ := hx
      exact (Real.exp_pos _).le
    by_cases hcrit : CERLPBoost.log_xi nu s done.length (i :: rest) + s i + Real.log nu ≤ 0
    · -- stopping branch: every remaining entry receives `exp(log_xi + s j)`
      have heq : CERLPBoost.projLoop nu s done.length (i :: rest) d
          = fun j => if j ∈ i :: rest then
              Real.exp (CERLPBoost.log_xi nu s done.length (i :: rest) + s j) else d j := by
        simp only [CERLPBoost.projLoop]
        rw [if_pos hcrit]
      have hexp_lx : Real.exp (CERLPBoost.log_xi nu s done.length (i :: rest))
          = (1 - 1 / nu * (done.length:ℝ)) / S := by
        rw [hlx, Real.exp_sub, Real.exp_log hfrac, Real.exp_log hSpos]
      have hcap : ∀ j ∈ i :: rest,
          Real.exp (CERLPBoost.log_xi nu s done.length (i :: rest) + s j) ≤ 1 / nu := by
        intro j hj
        have hsj : s j ≤ s i := by
          rcases List.mem_cons.mp hj with h | h
          · rw [h]
          · exact (List.pairwise_cons.mp hsort).1 j h
        have hle : CERLPBoost.log_xi nu s done.length (i :: rest) + s j ≤ - Real.log nu := by
          linarith
        calc Real.exp (CERLPBoost.log_xi nu s done.length (i :: rest) + s j)
            ≤ Real.exp (- Real.log nu) := Real.exp_le_exp.mpr hle
          _ = 1 / nu := by rw [Real.exp_neg, Real.exp_log hν0, one_div]
      have hsum : (∑ j, CERLPBoost.projLoop nu s done.length (i :: rest) d j) = 1 := by
        rw [heq, Fin.sum_univ_def, ← (hperm.map _).sum_eq, List.map_append, List.sum_append]
        have hdpart : (done.map fun j => if j ∈ i :: rest then
            Real.exp (CERLPBoost.log_xi nu s done.length (i :: rest) + s j) else d j).sum
            = (done.length : ℝ) * (1 / nu) := by
          have hmc : done.map (fun j => if j ∈ i :: rest then
              Real.exp (CERLPBoost.log_xi nu s done.length (i :: rest) + s j) else d j)
              = done.map (fun _ => 1 / nu) :=
            List.map_congr_left fun j hj => by
              rw [if_neg (fun hc => hdisj hj hc), hdone j hj]
          rw [hmc, list_sum_map_const]
        have hspart : ((i :: rest).map fun j => if j ∈ i :: rest then
            Real.exp (CERLPBoost.log_xi nu s done.length (i :: rest) + s j) else d j).sum
            = 1 - 1 / nu * (done.length : ℝ) := by
          have hmc : (i :: rest).map (fun j => if j ∈ i :: rest then
              Real.exp (CERLPBoost.log_xi nu s done.length (i :: rest) + s j) else d j)
              = (i :: rest).map (fun j =>
                  Real.exp (CERLPBoost.log_xi nu s done.length (i :: rest)) * Real.exp (s j)) :=
            List.map_congr_left fun j hj => by
              rw [if_pos hj, Real.exp_add]
          rw [hmc, List.sum_map_mul_left]
          have hS' : ((i :: rest).map fun j => Real.exp (s j)).sum = S := by
            rw [hSdef, List.map_map]
            rfl
          rw [hS', hexp_lx, div_mul_cancel₀ _ (ne_of_gt hSpos)]
        rw [hdpart, hspart]
        ring
      refine ⟨[], i :: rest, by simp, by simp, ?_, ?_, hsum⟩
      · intro j hj
        rw [List.append_nil] at hj
        rw [heq]
        simp only []
        rw [if_neg (fun hc => hdisj hj hc)]
        exact hdone j hj
      · intro j hj
        rw [heq]
        simp only []
        rw [if_pos hj]
        exact ⟨Real.exp_pos _, hcap j hj⟩
    · -- continuation branch: cap index `i` and recurse at rank `k + 1`
      have heq : CERLPBoost.projLoop nu s done.length (i :: rest) d
          = CERLPBoost.projLoop nu s (done.length + 1) rest
              (fun j => if j = i then 1 / nu else d j) := by
        simp only [CERLPBoost.projLoop]
        rw [if_neg hcrit]
      have hgt : 0 < CERLPBoost.log_xi nu s done.length (i :: rest) + s i + Real.log nu :=
        lt_of_not_le hcrit
      have hlt : Real.log S < Real.log (1 - 1 / nu * (done.length:ℝ)) + s i + Real.log nu := by
        rw [hlx] at hgt
        linarith
      have hSlt : S < Real.exp (s i) * (nu - (done.length : ℝ)) := by
        have h3 : S < Real.exp (Real.log (1 - 1 / nu * (done.length:ℝ)) + s i + Real.log nu) := by
          calc S = Real.exp (Real.log S) := (Real.exp_log hSpos).symm
            _ < _ := Real.exp_lt_exp.mpr hlt
        have h4 : Real.exp (Real.log (1 - 1 / nu * (done.length:ℝ)) + s i + Real.log nu)
            = Real.exp (s i) * ((1 - 1 / nu * (done.length:ℝ)) * nu) := by
          rw [Real.exp_add, Real.exp_add, Real.exp_log hfrac, Real.exp_log hν0]
          ring
        have h5 : (1 - 1 / nu * (done.length:ℝ)) * nu = nu - (done.length:ℝ) := by
          field_simp
        rw [h4, h5] at h3
        exact h3
      have hexple : Real.exp (s i) ≤ S := by
        rw [hSdef]
        simp only [List.map_cons, List.sum_cons]
        linarith
      have hstrict : ((done.length : ℝ) + 1) < nu := by
        have h6 : Real.exp (s i) < Real.exp (s i) * (nu - (done.length:ℝ)) :=
          lt_of_le_of_lt hexple hSlt
        by_contra hcon
        push_neg at hcon
        have h7 : nu - (done.length:ℝ) ≤ 1 := by linarith
        have h8 := mul_le_of_le_one_right (Real.exp_pos (s i)).le h7
        linarith
      obtain ⟨pre', suf', hrest, hsufne, hcap', hbound', hsum'⟩ :=
        ih (done ++ [i]) (fun j => if j = i then 1 / nu else d j)
          (by simpa using hperm)
          ((List.pairwise_cons.mp hsort).2)
          (by
            intro j hj
            rcases List.mem_append.mp hj with hj | hj
            · have hji : j ≠ i := fun hji => hdisj hj (hji ▸ List.mem_cons_self i rest)
              show (if j = i then 1 / nu else d j) = 1 / nu
              rw [if_neg hji]
              exact hdone j hj
            · have hji : j = i := by simpa using hj
              show (if j = i then 1 / nu else d j) = 1 / nu
              rw [if_pos hji])
          (by
            rw [List.length_append, List.length_singleton]
            push_cast
            exact hstrict)
      rw [List.length_append, List.length_singleton] at hcap' hbound' hsum'
      have hlists : (done ++ [i]) ++ pre' = done ++ i :: pre' := by simp
      rw [hlists] at hcap'
      refine ⟨i :: pre', suf', by rw [hrest]; rfl, hsufne, ?_, ?_, ?_⟩
      · intro j hj
        rw [heq]
        exact hcap' j hj
      · intro j hj
        rw [heq]
        exact hbound' j hj
      · rw [heq]
        exact hsum'

/-- Exit invariant of `CERLPBoost::update_distribution_mut` on a sorted index
enumeration: a capped prefix at `1/ν`, all remaining entries in `(0, 1/ν]`,
and total mass exactly 1. -/
theorem update_distribution_exit {m : ℕ} {H : Type _} (nu eta : ℝ) (y : Fin m → ℝ)
    (conf : H → Fin m → ℝ) (classifiers : List (H × ℝ)) (idx : List (Fin m))
    (h1 : 1 ≤ nu) (hm : nu ≤ (m:ℝ))
    (hperm : idx.Perm (List.finRange m))
    (hsort : idx.Pairwise fun a b => CERLPBoost.scores eta y conf classifiers b
      ≤ CERLPBoost.scores eta y conf classifiers a) :
    ∃ pre suf, idx = pre ++ suf ∧ suf ≠ [] ∧
      (∀ j ∈ pre, CERLPBoost.update_distribution nu eta y conf classifiers idx j = 1 / nu) ∧
      (∀ j ∈ suf, 0 < CERLPBoost.update_distribution nu eta y conf classifiers idx j ∧
        CERLPBoost.update_distribution nu eta y conf classifiers idx j ≤ 1 / nu) ∧
      (∑ j, CERLPBoost.update_distribution nu eta y conf classifiers idx j) = 1 := by
  obtain ⟨pre, suf, hsplit, hne, hcap, hbound, hsum⟩ :=
    projLoop_exit nu (CERLPBoost.scores eta y conf classifiers) h1 hm idx []
      (CERLPBoost.scores eta y conf classifiers) (by simpa using hperm) hsort
      (by intro j hj; cases hj) (by simpa using lt_of_lt_of_le one_pos h1)
  exact ⟨pre, suf, hsplit, hne,
    fun j hj => hcap j (by simpa using hj), hbound, hsum⟩

/-- Every entry of the projected distribution is positive and at most `1/ν`,
and the entries sum to one exactly. -/
theorem update_distribution_bounds {m : ℕ} {H : Type _} (nu eta : ℝ) (y : Fin m → ℝ)
    (conf : H → Fin m → ℝ) (classifiers : List (H × ℝ)) (idx : List (Fin m))
    (h1 : 1 ≤ nu) (hm : nu ≤ (m:ℝ))
    (hperm : idx.Perm (List.finRange m))
    (hsort : idx.Pairwise fun a b => CERLPBoost.scores eta y conf classifiers b
      ≤ CERLPBoost.scores eta y conf classifiers a) :
    (∀ j, 0 < CERLPBoost.update_distribution nu eta y conf classifiers idx j ∧
      CERLPBoost.update_distribution nu eta y conf classifiers idx j ≤ 1 / nu) ∧
    (∑ j, CERLPBoost.update_distribution nu eta y conf classifiers idx j) = 1 := by
  obtain ⟨pre, suf, hsplit, -, hcap, hbound, hsum⟩ :=
    update_distribution_exit nu eta y conf classifiers idx h1 hm hperm hsort
  refine ⟨fun j => ?_, hsum⟩
  have hν0 : (0:ℝ) < nu := lt_of_lt_of_le one_pos h1
  have hj : j ∈ idx := hperm.mem_iff.mpr (List.mem_finRange j)
  rw [hsplit] at hj
  rcases List.mem_append.mp hj with hj | hj
  · rw [hcap j hj]
    exact ⟨by positivity, le_refl _⟩
  · exact hbound j hj

/-- `AdaBoost::boost` never modifies `max_iter`. -/
theorem adaboost_boost_max_iter {m : ℕ} {H : Type _} (st : AdaBoost.Alg m H)
    (y conf : Fin m → ℝ) (h : H) (iteration : ℕ) :
    (AdaBoost.boost st y h conf iteration).2.max_iter = st.max_iter := by
  unfold AdaBoost.boost
  split_ifs <;> rfl

/-- The scores of the counterexample input are all zero (the classifier list
is empty, so the combined confidence is zero on every row). -/
theorem cexScores_eq :
    CERLPBoost.scores (m := 2) 1 ![1, -1] (fun _ : Unit => fun _ => 0) [] = fun _ => 0 := by
  funext i
  simp [CERLPBoost.scores, CERLPBoost.prediction]

/-- The `log_xi` value at rank 0 of the counterexample projection. -/
theorem cexLogXi_eq :
    CERLPBoost.log_xi (m := 2) 2 (fun _ => 0) 0 [0, 1] = - Real.log 2 := by
  unfold CERLPBoost.log_xi CERLPBoost.suffix_logsum
  norm_num [logsumexp, lseStep, Real.exp_zero, Real.log_one]

/-- The counterexample projection puts mass `1/2 = 1/ν` on both rows. -/
theorem cexDist_eq : ∀ j, CERLPBoost.cexDist j = 1 / 2 := by
  intro j
  unfold CERLPBoost.cexDist CERLPBoost.update_distribution
  rw [cexScores_eq]
  simp only [CERLPBoost.projLoop]
  rw [if_pos (by rw [cexLogXi_eq]; norm_num)]
  have hj : j ∈ ([0, 1] : List (Fin 2)) := by fin_cases j <;> simp
  rw [if_pos hj, cexLogXi_eq]
  norm_num [Real.exp_neg, Real.exp_log]

/-! Claim theorems. -/

/-- C3: in every AdaBoost round that is actually executed (the iteration has
not exceeded `max_iter`) and whose computed edge satisfies `|edge| ≥ 1` (the
boundary is exactly `≥`), the boost call replaces the weighted-hypothesis
list with the single entry `(sign(edge), h)` for the hypothesis `h` obtained
this round, and returns Terminate. -/
theorem adaboost_perfect_edge_terminates {m : ℕ} {H : Type} (st : AdaBoost.Alg m H)
    (y conf : Fin m → ℝ) (h : H) (iteration : ℕ)
    (hit : iteration ≤ st.max_iter)
    (hedge : 1 ≤ |AdaBoost.edge st.dist y conf|) :
    (AdaBoost.boost st y h conf iteration).1 = State.Terminate ∧
    (AdaBoost.boost st y h conf iteration).2.weighted_classifiers
      = [(rustSignum (AdaBoost.edge st.dist y conf), h)] := by
  unfold AdaBoost.boost
  rw [if_neg (not_lt.mpr hit), if_pos hedge]
  exact ⟨rfl, rfl⟩

/-- Witness for C3 at a concrete input: a 1-row sample with label 1 and a
hypothesis of confidence 1, so the edge is exactly 1 (the `≥` boundary). -/
theorem adaboost_perfect_edge_terminates_witness :
    ((1:ℕ) ≤ 5) ∧
    (1 ≤ |AdaBoost.edge (m := 1) (fun _ => 1) (fun _ => 1) (fun _ => 1)|) ∧
    ((AdaBoost.boost (⟨fun _ => 1, 1/10, [], 5, 0⟩ : AdaBoost.Alg 1 Unit)
        (fun _ => 1) () (fun _ => 1) 1).1 = State.Terminate ∧
     (AdaBoost.boost (⟨fun _ => 1, 1/10, [], 5, 0⟩ : AdaBoost.Alg 1 Unit)
        (fun _ => 1) () (fun _ => 1) 1).2.weighted_classifiers
       = [(rustSignum (AdaBoost.edge (m := 1) (fun _ => 1) (fun _ => 1) (fun _ => 1)), ())]) := by
  have hedge : 1 ≤ |AdaBoost.edge (m := 1) (fun _ => 1) (fun _ => 1) (fun _ => 1)| := by
    unfold AdaBoost.edge AdaBoost.margins
    rw [Fin.sum_univ_one]
    norm_num
  exact ⟨by norm_num, hedge,
    adaboost_perfect_edge_terminates _ _ _ () 1 (by norm_num) hedge⟩

/-- C6 counterexample: for the 2-row sample with tolerance `ε = 2/5`, the
computed iteration bound is `⌊ln 2 / ε²⌋ = 4`, not the claimed
`⌈ln 2 / ε²⌉ = 5` (the `as usize` cast truncates instead of rounding up). -/
theorem adaboost_max_iter_ceiling_fails :
    AdaBoost.max_loop 2 (2/5) ≠ ⌈Real.log 2 / ((2:ℝ)/5) ^ 2⌉₊ := by
  have h1 := Real.log_two_gt_d9
  have h2 := Real.log_two_lt_d9
  have hlog0 : (0:ℝ) ≤ Real.log 2 := by linarith
  have hfloor : AdaBoost.max_loop 2 (2/5) = 4 := by
    unfold AdaBoost.max_loop
    rw [Nat.floor_eq_iff (div_nonneg hlog0 (by norm_num))]
    constructor
    · rw [le_div_iff (by norm_num)]
      nlinarith
    · rw [div_lt_iff (by norm_num)]
      nlinarith
  have hceil : ⌈Real.log 2 / ((2:ℝ)/5) ^ 2⌉₊ = 5 := by
    rw [Nat.ceil_eq_iff (by norm_num)]
    constructor
    · push_cast
      rw [lt_div_iff (by norm_num)]
      nlinarith
    · rw [div_le_iff (by norm_num)]
      nlinarith
  rw [hfloor, hceil]
  norm_num

/-- C6 as amended: AdaBoost derives its iteration bound as
`max_iter = ⌊ln(m)/ε²⌋` (the `as usize` cast truncates toward zero); every
boost call whose iteration exceeds `max_iter` returns Terminate immediately;
hence the driver, which stops at the first Terminate, performs at most
`max_iter + 1` boost calls — in particular the call at round `max_iter + 1`
already signals Terminate. -/
theorem adaboost_max_iter_floor_and_stop :
    (∀ m tol : ℝ, AdaBoost.max_loop m tol = ⌊Real.log m / tol ^ 2⌋₊) ∧
    (∀ (m : ℕ) (H : Type) (st : AdaBoost.Alg m H) (y conf : Fin m → ℝ) (h : H)
       (iteration : ℕ), st.max_iter < iteration →
       (AdaBoost.boost st y h conf iteration).1 = State.Terminate) ∧
    (∀ (m : ℕ) (H : Type) (init : AdaBoost.Alg m H) (y : Fin m → ℝ)
       (rounds : ℕ → H × (Fin m → ℝ)),
       AdaBoost.signal init y rounds (init.max_iter + 1) = State.Terminate) := by
  refine ⟨fun m tol => rfl, ?_, ?_⟩
  · intro m H st y conf h iteration hlt
    unfold AdaBoost.boost
    rw [if_pos hlt]
  · intro m H init y rounds
    have hmax : ∀ t, (AdaBoost.steps init y rounds t).max_iter = init.max_iter := by
      intro t
      induction t with
      | zero => rfl
      | succ t iht =>
        show (AdaBoost.boost (AdaBoost.steps init y rounds t) y _ _ (t + 1)).2.max_iter = _
        rw [adaboost_boost_max_iter, iht]
    unfold AdaBoost.signal
    unfold AdaBoost.boost
    rw [if_pos]
    rw [show init.max_iter + 1 - 1 = init.max_iter from rfl, hmax]
    exact Nat.lt_succ_self _

/-- Witness for C6's amended theorem (its second conjunct has a hypothesis):
a state with `max_iter = 0` receives a boost call at iteration 1 and
terminates. -/
theorem adaboost_max_iter_floor_and_stop_witness :
    ((0:ℕ) < 1) ∧
    (AdaBoost.boost (⟨fun _ => 1, 1/10, [], 0, 0⟩ : AdaBoost.Alg 1 Unit)
      (fun _ => 1) () (fun _ => 1) 1).1 = State.Terminate :=
  ⟨Nat.zero_lt_one,
   adaboost_max_iter_floor_and_stop.2.1 1 Unit _ _ _ () 1 Nat.zero_lt_one⟩

/-- C8: the combined hypothesis built from the single entry `(1.0, h)` (with
constant 0, as the `From` impl sets it) has exactly the confidence of `h` on
every data frame and row, and its default predicted label coincides with the
sign-of-confidence prediction of `h`. -/
theorem single_entry_combined_behaves_like_h (α H : Type) (conf : H → α → ℕ → ℝ)
    (h : H) (df : α) (row : ℕ) :
    CombinedHypothesis.confidence conf (CombinedHypothesis.ofList [(1, h)]) df row
      = conf h df row ∧
    classifierPredict
        (CombinedHypothesis.confidence conf (CombinedHypothesis.ofList [(1, h)])) df row
      = classifierPredict (conf h) df row := by
  have hc : CombinedHypothesis.confidence conf (CombinedHypothesis.ofList [(1, h)]) df row
      = conf h df row := by
    simp [CombinedHypothesis.confidence, CombinedHypothesis.ofList]
  refine ⟨hc, ?_⟩
  unfold classifierPredict
  rw [hc]

/-- C9: `update_params` only ever removes edges — the post-round adjacency of
each vertex is a subset of the pre-round one, and the removed edges are
exactly those on which the new hypothesis disagrees; consequently each round
of `edgesAfter` shrinks the adjacency and it always stays inside the initial
adjacency built by `preprocess`. -/
theorem graph_edges_removed_never_added :
    (∀ (m : ℕ) (pred : Fin m → ℤ) (edges : Fin m → Finset (Fin m)) (i : Fin m),
       GraphSepBoost.update_params pred edges i ⊆ edges i ∧
       edges i \ GraphSepBoost.update_params pred edges i
         = (edges i).filter fun j => pred i ≠ pred j) ∧
    (∀ (m : ℕ) (y : Fin m → ℝ) (preds : List (Fin m → ℤ)) (p : Fin m → ℤ) (i : Fin m),
       GraphSepBoost.edgesAfter y (preds ++ [p]) i ⊆ GraphSepBoost.edgesAfter y preds i) ∧
    (∀ (m : ℕ) (y : Fin m → ℝ) (preds : List (Fin m → ℤ)) (i : Fin m),
       GraphSepBoost.edgesAfter y preds i ⊆ GraphSepBoost.preprocess y i) := by
  refine ⟨?_, ?_, ?_⟩
  · intro m pred edges i
    refine ⟨Finset.filter_subset _ _, ?_⟩
    exact (Finset.filter_not _ _).symm
  · intro m y preds p i
    unfold GraphSepBoost.edgesAfter
    rw [List.foldl_append]
    simp only [List.foldl_cons, List.foldl_nil]
    exact Finset.filter_subset _ _
  · intro m y preds i
    have hgen : ∀ (preds : List (Fin m → ℤ)) (e : Fin m → Finset (Fin m)) (i : Fin m),
        (preds.foldl (fun e p => GraphSepBoost.update_params p e) e) i ⊆ e i := by
      intro preds
      induction preds with
      | nil => intro e i; simp
      | cons p preds ihp =>
        intro e i
        simp only [List.foldl_cons]
        exact (ihp _ i).trans (Finset.filter_subset _ _)
    exact hgen preds _ i

/-- C10: for every classifier using the default `predict` (signum of the
confidence cast to `i64`), the label is always `+1` or `-1`, never `0`, and
a confidence of exactly `0.0` yields `+1` (Rust's `f64::signum` maps `+0.0`
to `1.0`). -/
theorem default_predict_sign (α : Type) (confidence : α → ℕ → ℝ) (df : α) (row : ℕ) :
    (classifierPredict confidence df row = 1 ∨ classifierPredict confidence df row = -1) ∧
    (confidence df row = 0 → classifierPredict confidence df row = 1) := by
  unfold classifierPredict rustSignum
  by_cases hx : confidence df row < 0
  · rw [if_pos hx]
    constructor
    · right
      unfold f64AsI64
      rw [if_pos (by norm_num), show ((-1:ℝ)) = ((-1 : ℤ) : ℝ) by norm_num, Int.ceil_intCast]
    · intro h0
      rw [h0] at hx
      norm_num at hx
  · rw [if_neg hx]
    constructor
    · left
      norm_num [f64AsI64]
    · intro _
      norm_num [f64AsI64]

/-- Witness for C10: a confidence of exactly 0 predicts `+1`. -/
theorem default_predict_sign_witness :
    ((fun (_ : Unit) (_ : ℕ) => (0:ℝ)) () 0 = 0) ∧
    classifierPredict (fun (_ : Unit) (_ : ℕ) => (0:ℝ)) () 0 = 1 :=
  ⟨rfl, (default_predict_sign Unit (fun _ _ => 0) () 0).2 rfl⟩

/-- On a Continue signal, AdaBoost's post-round distribution is the
renormalized one produced by `update_params`. -/
theorem adaboost_boost_dist_of_continue {m : ℕ} {H : Type} (st : AdaBoost.Alg m H)
    (y conf : Fin m → ℝ) (h : H) (iteration : ℕ)
    (hcont : (AdaBoost.boost st y h conf iteration).1 = State.Continue) :
    (AdaBoost.boost st y h conf iteration).2.dist
      = (AdaBoost.update_params st.dist (AdaBoost.margins y conf)
          (AdaBoost.edge st.dist y conf)).2 := by
  unfold AdaBoost.boost at hcont ⊢
  by_cases h1 : st.max_iter < iteration
  · rw [if_pos h1] at hcont
    simp at hcont
  · rw [if_neg h1] at hcont ⊢
    by_cases h2 : 1 ≤ |AdaBoost.edge st.dist y conf|
    · rw [if_pos h2] at hcont
      simp at hcont
    · rw [if_neg h2]

/-- On a Continue signal, CERLPBoost's post-round distribution is the output
of the capped projection. -/
theorem cerlp_boost_dist_of_continue {m : ℕ} {H : Type} (conf : H → Fin m → ℝ)
    (y : Fin m → ℝ) (st : CERLPBoost.Alg m H) (h : H) (idx : List (Fin m)) (iteration : ℕ)
    (hcont : (CERLPBoost.boost conf y st h idx iteration).1 = State.Continue) :
    (CERLPBoost.boost conf y st h idx iteration).2.dist
      = CERLPBoost.update_distribution st.nu st.eta y conf st.classifiers idx := by
  unfold CERLPBoost.boost at hcont ⊢
  by_cases h1 : st.max_iter < iteration
  · rw [if_pos h1] at hcont
    simp at hcont
  · rw [if_neg h1] at hcont ⊢
    by_cases h2 : CERLPBoost.diff (CERLPBoost.gap_vec y conf st.classifiers (conf h))
        (CERLPBoost.update_distribution st.nu st.eta y conf st.classifiers idx)
        ≤ st.tolerance
    · rw [if_pos h2] at hcont
      simp at hcont
    · rw [if_neg h2]

/-- C1: after every boost call returning Continue, the maintained
distribution has only nonnegative (in the real model: finite) entries, sums
to 1 within 1e-9 (here: exactly), and respects the cap — at most `1/ν = 1`
per entry for AdaBoost (uncapped, after the log-domain update and log-sum-exp
renormalization) and at most `1/ν` per entry for CERLPBoost (after the capped
entropic projection). -/
theorem distribution_invariant_after_continue :
    (∀ (m : ℕ) (H : Type) (st : AdaBoost.Alg m H) (y conf : Fin m → ℝ) (h : H)
       (iteration : ℕ), 0 < m → (∀ i, 0 < st.dist i) →
       (AdaBoost.boost st y h conf iteration).1 = State.Continue →
       (∀ i, 0 ≤ (AdaBoost.boost st y h conf iteration).2.dist i ∧
          (AdaBoost.boost st y h conf iteration).2.dist i ≤ 1 / 1 + 1e-12) ∧
       |(∑ i, (AdaBoost.boost st y h conf iteration).2.dist i) - 1| ≤ 1e-9) ∧
    (∀ (m : ℕ) (H : Type) (conf : H → Fin m → ℝ) (y : Fin m → ℝ)
       (st : CERLPBoost.Alg m H) (h : H) (idx : List (Fin m)) (iteration : ℕ),
       1 ≤ st.nu → st.nu ≤ (m:ℝ) →
       idx.Perm (List.finRange m) →
       (idx.Pairwise fun a b => CERLPBoost.scores st.eta y conf st.classifiers b
         ≤ CERLPBoost.scores st.eta y conf st.classifiers a) →
       (CERLPBoost.boost conf y st h idx iteration).1 = State.Continue →
       (∀ i, 0 ≤ (CERLPBoost.boost conf y st h idx iteration).2.dist i ∧
          (CERLPBoost.boost conf y st h idx iteration).2.dist i ≤ 1 / st.nu + 1e-12) ∧
       |(∑ i, (CERLPBoost.boost conf y st h idx iteration).2.dist i) - 1| ≤ 1e-9) := by
  constructor
  · intro m H st y conf h iteration hm hd hcont
    rw [adaboost_boost_dist_of_continue st y conf h iteration hcont]
    obtain ⟨hpos, hsum⟩ := adaboost_update_params_dist hm st.dist
      (AdaBoost.margins y conf) (AdaBoost.edge st.dist y conf)
    refine ⟨fun i => ⟨(hpos i).le, ?_⟩, ?_⟩
    · have hle := Finset.single_le_sum (fun j _ => (hpos j).le) (Finset.mem_univ i)
      rw [hsum] at hle
      have hee : (1:ℝ) ≤ 1 / 1 + 1e-12 := by norm_num
      linarith
    · rw [hsum]
      norm_num
  · intro m H conf y st h idx iteration h1 hm hperm hsort hcont
    rw [cerlp_boost_dist_of_continue conf y st h idx iteration hcont]
    obtain ⟨hb, hsum⟩ := update_distribution_bounds st.nu st.eta y conf st.classifiers idx
      h1 hm hperm hsort
    refine ⟨fun i => ⟨(hb i).1.le, ?_⟩, ?_⟩
    · have hee : (0:ℝ) ≤ 1e-12 := by norm_num
      linarith [(hb i).2]
    · rw [hsum]
      norm_num

/-- Witness for C1 at concrete inputs: an AdaBoost round on a 2-row sample
with edge 0 (Continue), and a CERLPBoost round on a 1-row sample with gap 1
above the stored tolerance 1/4 (Continue). -/
theorem distribution_invariant_after_continue_witness :
    (((0:ℕ) < 2) ∧ (∀ i, (0:ℝ) < (![(1:ℝ)/2, 1/2]) i) ∧
     ((AdaBoost.boost (⟨![(1:ℝ)/2, 1/2], 1/10, [], 5, 0⟩ : AdaBoost.Alg 2 Unit)
         ![1, -1] () ![1, 1] 1).1 = State.Continue) ∧
     ((∀ i, 0 ≤ (AdaBoost.boost (⟨![(1:ℝ)/2, 1/2], 1/10, [], 5, 0⟩ : AdaBoost.Alg 2 Unit)
           ![1, -1] () ![1, 1] 1).2.dist i ∧
        (AdaBoost.boost (⟨![(1:ℝ)/2, 1/2], 1/10, [], 5, 0⟩ : AdaBoost.Alg 2 Unit)
           ![1, -1] () ![1, 1] 1).2.dist i ≤ 1 / 1 + 1e-12) ∧
      |(∑ i, (AdaBoost.boost (⟨![(1:ℝ)/2, 1/2], 1/10, [], 5, 0⟩ : AdaBoost.Alg 2 Unit)
           ![1, -1] () ![1, 1] 1).2.dist i) - 1| ≤ 1e-9)) ∧
    (((1:ℝ) ≤ 1) ∧ ((1:ℝ) ≤ ((1:ℕ):ℝ)) ∧
     (([0] : List (Fin 1)).Perm (List.finRange 1)) ∧
     ((CERLPBoost.boost (fun _ : Unit => fun _ => 1) ![1]
         (⟨![(1:ℝ)], 1, 1/4, 1, [], 5, 0⟩ : CERLPBoost.Alg 1 Unit) () [0] 1).1
        = State.Continue) ∧
     ((∀ i, 0 ≤ (CERLPBoost.boost (fun _ : Unit => fun _ => 1) ![1]
           (⟨![(1:ℝ)], 1, 1/4, 1, [], 5, 0⟩ : CERLPBoost.Alg 1 Unit) () [0] 1).2.dist i ∧
        (CERLPBoost.boost (fun _ : Unit => fun _ => 1) ![1]
           (⟨![(1:ℝ)], 1, 1/4, 1, [], 5, 0⟩ : CERLPBoost.Alg 1 Unit) () [0] 1).2.dist i
          ≤ 1 / 1 + 1e-12) ∧
      |(∑ i, (CERLPBoost.boost (fun _ : Unit => fun _ => 1) ![1]
           (⟨![(1:ℝ)], 1, 1/4, 1, [], 5, 0⟩ : CERLPBoost.Alg 1 Unit) () [0] 1).2.dist i) - 1|
        ≤ 1e-9)) := by
  have hdA : ∀ i, (0:ℝ) < (![(1:ℝ)/2, 1/2]) i := by
    intro i
    fin_cases i <;> norm_num
  have hcontA : (AdaBoost.boost (⟨![(1:ℝ)/2, 1/2], 1/10, [], 5, 0⟩ : AdaBoost.Alg 2 Unit)
      ![1, -1] () ![1, 1] 1).1 = State.Continue := by
    norm_num [AdaBoost.boost, AdaBoost.edge, AdaBoost.margins, Fin.sum_univ_two]
  have hpermB : ([0] : List (Fin 1)).Perm (List.finRange 1) := by decide
  have hsortB : ([0] : List (Fin 1)).Pairwise
      (fun a b => CERLPBoost.scores 1 ![1] (fun _ : Unit => fun _ => 1) [] b
        ≤ CERLPBoost.scores 1 ![1] (fun _ : Unit => fun _ => 1) [] a) := by
    simp
  have hcontB : (CERLPBoost.boost (fun _ : Unit => fun _ => 1) ![1]
      (⟨![(1:ℝ)], 1, 1/4, 1, [], 5, 0⟩ : CERLPBoost.Alg 1 Unit) () [0] 1).1
      = State.Continue := by
    norm_num [CERLPBoost.boost, CERLPBoost.diff, CERLPBoost.gap_vec, CERLPBoost.prediction,
      CERLPBoost.update_distribution, CERLPBoost.scores, CERLPBoost.projLoop,
      CERLPBoost.log_xi, CERLPBoost.suffix_logsum, logsumexp, lseStep,
      Real.exp_zero, Real.log_one, Fin.sum_univ_one]
  exact ⟨⟨Nat.zero_lt_two, hdA, hcontA,
      distribution_invariant_after_continue.1 2 Unit _ ![1, -1] ![1, 1] () 1
        Nat.zero_lt_two hdA hcontA⟩,
    ⟨le_refl 1, by norm_num, hpermB, hcontB,
      distribution_invariant_after_continue.2 1 Unit (fun _ : Unit => fun _ => 1) ![1]
        (⟨![(1:ℝ)], 1, 1/4, 1, [], 5, 0⟩ : CERLPBoost.Alg 1 Unit) () [0] 1
        (le_refl 1) (by norm_num) hpermB hsortB hcontB⟩⟩

/-- C2 counterexample: on the first round of a 2-row sample with `ν = m = 2`
(empty classifier list, all scores 0, sorted order `[0, 1]`), the projection
assigns `1/ν = 1/2` to both entries.  No `k < m` exists for which exactly `k`
entries equal `1/ν` while all others lie strictly inside `(0, 1/ν)`. -/
theorem capped_projection_strict_interior_fails :
    ¬ ∃ k : ℕ, k < 2 ∧
      (Finset.univ.filter fun i => CERLPBoost.cexDist i = 1/2).card = k ∧
      (∀ i, CERLPBoost.cexDist i ≠ 1/2 →
        0 < CERLPBoost.cexDist i ∧ CERLPBoost.cexDist i < 1/2) ∧
      (∑ i, CERLPBoost.cexDist i) = 1 := by
  rintro ⟨k, hk, hcard, -, -⟩
  rw [Finset.filter_true_of_mem fun i _ => cexDist_eq i, Finset.card_univ,
    Fintype.card_fin] at hcard
  omega

/-- C2 as amended: on exit of the capped entropic projection (on the scores
`sᵢ = -η·yᵢ·F(xᵢ)` along the non-increasing sort order `idx`), there is some
`k` with `0 ≤ k < m` such that the `k` entries ranked highest by score equal
`1/ν`, every other entry lies in the half-open interval `(0, 1/ν]` (at the
stopping boundary an uncapped entry may also equal `1/ν`), and the entries of
`d` sum to 1. -/
theorem cerlp_projection_exit_shape {m : ℕ} {H : Type} (nu eta : ℝ) (y : Fin m → ℝ)
    (conf : H → Fin m → ℝ) (classifiers : List (H × ℝ)) (idx : List (Fin m))
    (h1 : 1 ≤ nu) (hm : nu ≤ (m:ℝ))
    (hperm : idx.Perm (List.finRange m))
    (hsort : idx.Pairwise fun a b => CERLPBoost.scores eta y conf classifiers b
      ≤ CERLPBoost.scores eta y conf classifiers a) :
    ∃ pre suf, idx = pre ++ suf ∧ suf ≠ [] ∧ pre.length < m ∧
      (∀ j ∈ pre, CERLPBoost.update_distribution nu eta y conf classifiers idx j = 1 / nu) ∧
      (∀ j ∈ suf, 0 < CERLPBoost.update_distribution nu eta y conf classifiers idx j ∧
        CERLPBoost.update_distribution nu eta y conf classifiers idx j ≤ 1 / nu) ∧
      (∑ j, CERLPBoost.update_distribution nu eta y conf classifiers idx j) = 1 := by
  obtain ⟨pre, suf, hsplit, hne, hcap, hbound, hsum⟩ :=
    update_distribution_exit nu eta y conf classifiers idx h1 hm hperm hsort
  have hlen : idx.length = m := by simpa using hperm.length_eq
  have hslen : 0 < suf.length := List.length_pos.mpr hne
  have hplen : pre.length + suf.length = m := by
    rw [← List.length_append, ← hsplit, hlen]
  exact ⟨pre, suf, hsplit, hne, by omega, hcap, hbound, hsum⟩

/-- Witness for C2's amended theorem: a 2-row sample with `ν = 1`, empty
classifier list, and sorted order `[0, 1]`. -/
theorem cerlp_projection_exit_shape_witness :
    ((1:ℝ) ≤ 1) ∧ ((1:ℝ) ≤ ((2:ℕ):ℝ)) ∧
    (([0, 1] : List (Fin 2)).Perm (List.finRange 2)) ∧
    (([0, 1] : List (Fin 2)).Pairwise
      (fun a b => CERLPBoost.scores 1 ![1, 1] (fun _ : Unit => fun _ => 0) [] b
        ≤ CERLPBoost.scores 1 ![1, 1] (fun _ : Unit => fun _ => 0) [] a)) ∧
    (∃ pre suf, ([0, 1] : List (Fin 2)) = pre ++ suf ∧ suf ≠ [] ∧ pre.length < 2 ∧
      (∀ j ∈ pre, CERLPBoost.update_distribution 1 1 ![1, 1]
          (fun _ : Unit => fun _ => 0) [] [0, 1] j = 1 / 1) ∧
      (∀ j ∈ suf, 0 < CERLPBoost.update_distribution 1 1 ![1, 1]
          (fun _ : Unit => fun _ => 0) [] [0, 1] j ∧
        CERLPBoost.update_distribution 1 1 ![1, 1]
          (fun _ : Unit => fun _ => 0) [] [0, 1] j ≤ 1 / 1) ∧
      (∑ j, CERLPBoost.update_distribution 1 1 ![1, 1]
          (fun _ : Unit => fun _ => 0) [] [0, 1] j) = 1) := by
  have hperm : ([0, 1] : List (Fin 2)).Perm (List.finRange 2) := by decide
  have hsort : ([0, 1] : List (Fin 2)).Pairwise
      (fun a b => CERLPBoost.scores 1 ![1, 1] (fun _ : Unit => fun _ => 0) [] b
        ≤ CERLPBoost.scores 1 ![1, 1] (fun _ : Unit => fun _ => 0) [] a) := by
    simp [CERLPBoost.scores, CERLPBoost.prediction]
  exact ⟨le_refl 1, by norm_num, hperm, hsort,
    cerlp_projection_exit_shape 1 1 ![1, 1] (fun _ : Unit => fun _ => 0) [] [0, 1]
      (le_refl 1) (by norm_num) hperm hsort⟩

/-- C4: whenever a CERLPBoost boost call at an iteration within `max_iter`
returns Terminate, the inner product of the gap vector with the current
(post-projection) distribution is at most the configured tolerance `ε` (the
builder stores `ε/2`, so the check `⟨g,d⟩ ≤ ε/2` implies `⟨g,d⟩ ≤ ε`). -/
theorem cerlpboost_terminating_gap_le_tolerance {m : ℕ} {H : Type}
    (conf : H → Fin m → ℝ) (y : Fin m → ℝ) (st : CERLPBoost.Alg m H) (h : H)
    (idx : List (Fin m)) (iteration : ℕ) (eps : ℝ)
    (htol : st.tolerance = CERLPBoost.tolerance eps) (heps : 0 ≤ eps)
    (hit : iteration ≤ st.max_iter)
    (hterm : (CERLPBoost.boost conf y st h idx iteration).1 = State.Terminate) :
    CERLPBoost.diff (CERLPBoost.gap_vec y conf st.classifiers (conf h))
      ((CERLPBoost.boost conf y st h idx iteration).2.dist) ≤ eps := by
  by_cases hd : CERLPBoost.diff (CERLPBoost.gap_vec y conf st.classifiers (conf h))
      (CERLPBoost.update_distribution st.nu st.eta y conf st.classifiers idx)
      ≤ st.tolerance
  · have hdist : (CERLPBoost.boost conf y st h idx iteration).2.dist
        = CERLPBoost.update_distribution st.nu st.eta y conf st.classifiers idx := by
      unfold CERLPBoost.boost
      rw [if_neg (not_lt.mpr hit), if_pos hd]
    rw [hdist]
    rw [htol] at hd
    unfold CERLPBoost.tolerance at hd
    linarith
  · exfalso
    unfold CERLPBoost.boost at hterm
    rw [if_neg (not_lt.mpr hit), if_neg hd] at hterm
    simp at hterm

/-- Witness for C4: a 1-row sample where the new hypothesis has confidence 0,
so the gap is 0 and the round terminates with `⟨g,d⟩ = 0 ≤ ε = 1/2`. -/
theorem cerlpboost_terminating_gap_le_tolerance_witness :
    ((⟨![(1:ℝ)], 1, CERLPBoost.tolerance (1/2), 1, [], 5, 0⟩ :
        CERLPBoost.Alg 1 Unit).tolerance = CERLPBoost.tolerance (1/2)) ∧
    ((0:ℝ) ≤ 1/2) ∧ ((1:ℕ) ≤ 5) ∧
    ((CERLPBoost.boost (fun _ : Unit => fun _ => 0) ![1]
        (⟨![(1:ℝ)], 1, CERLPBoost.tolerance (1/2), 1, [], 5, 0⟩ : CERLPBoost.Alg 1 Unit)
        () [0] 1).1 = State.Terminate) ∧
    (CERLPBoost.diff (CERLPBoost.gap_vec ![1] (fun _ : Unit => fun _ => 0) []
        ((fun _ : Unit => fun _ => 0) ()))
      ((CERLPBoost.boost (fun _ : Unit => fun _ => 0) ![1]
        (⟨![(1:ℝ)], 1, CERLPBoost.tolerance (1/2), 1, [], 5, 0⟩ : CERLPBoost.Alg 1 Unit)
        () [0] 1).2.dist) ≤ 1/2) := by
  have hterm : (CERLPBoost.boost (fun _ : Unit => fun _ => 0) ![1]
      (⟨![(1:ℝ)], 1, CERLPBoost.tolerance (1/2), 1, [], 5, 0⟩ : CERLPBoost.Alg 1 Unit)
      () [0] 1).1 = State.Terminate := by
    norm_num [CERLPBoost.boost, CERLPBoost.diff, CERLPBoost.gap_vec, CERLPBoost.prediction,
      CERLPBoost.tolerance, Fin.sum_univ_one]
  exact ⟨rfl, by norm_num, by norm_num, hterm,
    cerlpboost_terminating_gap_le_tolerance (fun _ : Unit => fun _ => 0) ![1]
      (⟨![(1:ℝ)], 1, CERLPBoost.tolerance (1/2), 1, [], 5, 0⟩ : CERLPBoost.Alg 1 Unit)
      () [0] 1 (1/2) rfl (by norm_num) (by norm_num) hterm⟩

/-- C5 counterexample: with `m = 2`, `ν = 1`, `ε = 1/2`, the regularization
strength actually in effect is `ln(2)/( (1/2)/2 ) = 4·ln 2`, not the claimed
`ln(2)/(1/2) = 2·ln 2` (the builder halves the tolerance), so the claimed
pair of formulas fails. -/
theorem cerlpboost_parameter_formulas_fail :
    ¬ (CERLPBoost.eta_after_config 2 1 (1/2) = Real.log (2/1) / (1/2) ∧
       CERLPBoost.max_iter_after_config 2 1 (1/2)
         = ⌈8 * Real.log (2/1) / ((1:ℝ)/2) ^ 2⌉₊) := by
  rintro ⟨he, -⟩
  unfold CERLPBoost.eta_after_config CERLPBoost.regularization_param
    CERLPBoost.tolerance at he
  have hlog : 0 < Real.log 2 := Real.log_pos (by norm_num)
  norm_num at he
  linarith

/-- C5 as amended: in terms of the user-supplied tolerance `ε` (the builder
stores `ε/2`), the regularization strength is `η = 2·ln(m/ν)/ε` and the
iteration bound computed in preprocess is `max_iter = ⌈32·ln(m/ν)/ε²⌉`. -/
theorem cerlpboost_parameter_formulas (m nu eps : ℝ) :
    CERLPBoost.eta_after_config m nu eps = 2 * Real.log (m / nu) / eps ∧
    CERLPBoost.max_iter_after_config m nu eps = ⌈32 * Real.log (m / nu) / eps ^ 2⌉₊ := by
  unfold CERLPBoost.eta_after_config CERLPBoost.max_iter_after_config
    CERLPBoost.regularization_param CERLPBoost.max_loop CERLPBoost.tolerance
  constructor
  · rw [div_div_eq_mul_div, mul_comm]
  · congr 1
    rw [show (eps/2)^2 = eps^2/4 by ring, div_div_eq_mul_div]
    ring_nf

/-- C7: whenever SoftBoost's inner program reports Infeasible (or
InfeasibleOrUnbounded) at some inner iteration, or the inner loop finishes
with some distribution entry equal to 0, the boost call (at an iteration
within `max_iter`) returns Terminate cleanly — `some` rather than the
modelled panic — with the new hypothesis appended so that the list remains
usable by `postprocess`. -/
theorem softboost_degeneracy_terminates {m : ℕ} {H : Type} (conf : H → Fin m → ℝ)
    (y : Fin m → ℝ) (st : SoftBoost.Alg m H) (h : H)
    (responses : List (GrbStatus × (Fin m → ℝ))) (iteration : ℕ)
    (hit : iteration ≤ st.max_iter)
    (hdeg : (∃ dcur, SoftBoost.softLoop st.sub_tolerance responses st.dist
        = SoftBoost.Inner.optimality dcur) ∨
      (∃ d', SoftBoost.softLoop st.sub_tolerance responses st.dist
        = SoftBoost.Inner.done d' ∧ ∃ i, d' i = 0)) :
    ∃ st', SoftBoost.boost conf y st h responses iteration
        = some (State.Terminate, st') ∧
      st'.classifiers = st.classifiers ++ [h] := by
  have hup : ∃ dfin, SoftBoost.update_params_mut st.sub_tolerance responses st.dist
      = SoftBoost.Inner.optimality dfin := by
    rcases hdeg with ⟨dcur, hd⟩ | ⟨d', hd', i, hi⟩
    · refine ⟨dcur, ?_⟩
      unfold SoftBoost.update_params_mut
      rw [hd]
    · refine ⟨d', ?_⟩
      unfold SoftBoost.update_params_mut
      rw [hd']
      show (if ∃ i, d' i = 0 then SoftBoost.Inner.optimality d'
        else SoftBoost.Inner.done d') = SoftBoost.Inner.optimality d'
      rw [if_pos ⟨i, hi⟩]
  obtain ⟨dfin, hup⟩ := hup
  unfold SoftBoost.boost
  rw [if_neg (not_lt.mpr hit), hup]
  exact ⟨_, rfl, rfl⟩

/-- Witness for C7: the solver reports Infeasible on the first inner
iteration of a 1-row sample; the round terminates cleanly and keeps `h`. -/
theorem softboost_degeneracy_terminates_witness :
    ((1:ℕ) ≤ 3) ∧
    ((∃ dcur, SoftBoost.softLoop (1/10 : ℝ)
        [(GrbStatus.Infeasible, fun _ : Fin 1 => 0)] (fun _ : Fin 1 => 1)
        = SoftBoost.Inner.optimality dcur) ∨
     (∃ d', SoftBoost.softLoop (1/10 : ℝ)
        [(GrbStatus.Infeasible, fun _ : Fin 1 => 0)] (fun _ : Fin 1 => 1)
        = SoftBoost.Inner.done d' ∧ ∃ i, d' i = 0)) ∧
    (∃ st', SoftBoost.boost (fun _ : Unit => fun _ => 1) ![1]
        (⟨fun _ => 1, 1, 1/10, 1/10, 1, [], 3, 0⟩ : SoftBoost.Alg 1 Unit) ()
        [(GrbStatus.Infeasible, fun _ : Fin 1 => 0)] 1
        = some (State.Terminate, st') ∧
      st'.classifiers = ([] : List Unit) ++ [()]) := by
  have hdeg : (∃ dcur, SoftBoost.softLoop (1/10 : ℝ)
      [(GrbStatus.Infeasible, fun _ : Fin 1 => 0)] (fun _ : Fin 1 => 1)
      = SoftBoost.Inner.optimality dcur) ∨
      (∃ d', SoftBoost.softLoop (1/10 : ℝ)
        [(GrbStatus.Infeasible, fun _ : Fin 1 => 0)] (fun _ : Fin 1 => 1)
        = SoftBoost.Inner.done d' ∧ ∃ i, d' i = 0) := by
    left
    exact ⟨fun _ => 1, by simp [SoftBoost.softLoop]⟩
  exact ⟨by norm_num, hdeg,
    softboost_degeneracy_terminates (fun _ : Unit => fun _ => 1) ![1]
      (⟨fun _ => 1, 1, 1/10, 1/10, 1, [], 3, 0⟩ : SoftBoost.Alg 1 Unit) ()
      [(GrbStatus.Infeasible, fun _ : Fin 1 => 0)] 1 (by norm_num) hdeg⟩

end Miniboosts

end
